import Mathlib

set_option maxHeartbeats 1000000

/-!
Shallow embedding of `internal/dataplane/kongstate/kongstate.go` of the
kubernetes-ingress-controller repository, together with proofs about the
enrichment passes (`FillConsumersAndCredentials`, `FillOverrides`,
`FillPlugins`), the global-plugin deduplication (`globalPlugins`) and the
snapshot sanitizer (`SanitizedCopy`).

Go maps are embedded as association lists with the Go map's
insert-or-replace semantics; Go's nondeterministic map iteration order is
embedded as insertion order.  Nil-able Go pointers become `Option`;
dereferencing a possibly-nil pointer happens in the `Option` monad, where
`none` models a runtime panic.  Fallible store calls return `Except`.
Helpers of this package that live in files outside the provided source
(credential setter, override appliers, annotation extraction, certificate
and consumer sanitizers, `kongPluginFromK8SClusterPlugin`,
`ForeignRelations.GetCombinations`) are modelled from the spec and are
marked as such in their doc comments.
-/

deriving instance DecidableEq for Except

namespace KIC

/-- Kubernetes object metadata: namespace, name and the object's
annotation map (embedded as an association list). -/
structure ObjectMeta where
  Namespace : String
  Name : String
  Anns : List (String × String)
deriving DecidableEq, Repr

/-- A `KongConsumer` custom resource as served by the store: identity
fields, the list of referenced credential secret names, and the
resource's annotation map. -/
structure KongConsumer where
  Namespace : String
  Name : String
  Username : String
  CustomID : String
  Credentials : List String
  Anns : List (String × String)
deriving DecidableEq, Repr

/-- A value of the credential configuration map: Go `interface\x7b\x7d`
restricted to the three shapes the resolver actually produces (string,
bool for `hash_secret`, list of strings for `redirect_uris`). -/
inductive CredVal where
  | str (s : String)
  | bool (b : Bool)
  | list (l : List String)
deriving DecidableEq, Repr

/-- A typed credential held by a materialized consumer: the discriminator
plus the transformed field map. -/
structure Credential where
  credType : String
  config : List (String × CredVal)
deriving DecidableEq, Repr

/-- A materialized consumer of the snapshot (`kongstate.Consumer`):
optional identity pointers, the originating resource, and credentials. -/
structure Consumer where
  Username : Option String
  CustomID : Option String
  K8sKongConsumer : KongConsumer
  Credentials : List Credential
deriving DecidableEq, Repr

/-- A Kubernetes secret: its data map, values embedded as strings. -/
structure Secret where
  Data : List (String × String)
deriving DecidableEq, Repr

/-- A Kubernetes core Service backing a snapshot service: namespace, name
and annotations. -/
structure K8sService where
  Namespace : String
  Name : String
  Anns : List (String × String)
deriving DecidableEq, Repr

/-- A snapshot route: optional name pointer, the originating Ingress
metadata, and an overridable field (`PreserveHost`) standing for the
route's synthesized defaults. -/
structure Route where
  Name : Option String
  Ingress : ObjectMeta
  PreserveHost : Bool
deriving DecidableEq, Repr

/-- A snapshot service: optional name pointer, an overridable field
(`Protocol`) standing for its synthesized defaults, the backing
Kubernetes Services, and its routes. -/
structure Service where
  Name : Option String
  Protocol : String
  K8sServices : List K8sService
  Routes : List Route
deriving DecidableEq, Repr

/-- A snapshot upstream: an overridable field (`Algorithm`) and the
snapshot service it is derived from. -/
structure Upstream where
  Algorithm : String
  Service : Service
deriving DecidableEq, Repr

/-- A TLS certificate with a public part and a sensitive private key. -/
structure Certificate where
  Cert : String
  Key : String
deriving DecidableEq, Repr

/-- A CA certificate (no sensitive part). -/
structure CACertificate where
  Cert : String
deriving DecidableEq, Repr

/-- A gateway plugin instance: the Kong plugin name, its configuration,
and the optional target bindings (IDs of a service, route, consumer). -/
structure Plugin where
  PluginName : String
  Config : List (String × String)
  Service : Option String
  Route : Option String
  Consumer : Option String
deriving DecidableEq, Repr

/-- A `KongClusterPlugin` custom resource: the resource's own name and
the `PluginName` property naming the Kong plugin it declares. -/
structure KongClusterPlugin where
  Name : String
  PluginName : String
deriving DecidableEq, Repr

/-- A `KongIngress` override resource, holding optional override payloads
for the three entity kinds it can target. -/
structure KongIngress where
  proxyProtocol : Option String
  routePreserveHost : Option Bool
  upstreamAlgorithm : Option String
deriving DecidableEq, Repr

/-- A semantic version (major, minor, patch); the Go zero value is
`0.0.0`. -/
structure SemVer where
  major : Nat
  minor : Nat
  patch : Nat
deriving DecidableEq, Repr

instance : Inhabited SemVer := ⟨⟨0, 0, 0⟩⟩

/-- The configuration snapshot (`kongstate.KongState`). -/
structure KongState where
  Services : List Service
  Upstreams : List Upstream
  Certificates : List Certificate
  CACertificates : List CACertificate
  Plugins : List Plugin
  Consumers : List Consumer
  Version : SemVer
deriving DecidableEq, Repr

/-- The relation partitions of one plugin key (`util.ForeignRelations`):
target identifiers for each of the three kinds. -/
structure ForeignRelations where
  Consumer : List String
  Route : List String
  Service : List String
deriving DecidableEq, Repr

/-- One combination of target identifiers produced by the combination
generator (`util.Rel`); an empty string means the binding is unset. -/
structure Rel where
  Service : String
  Route : String
  Consumer : String
deriving DecidableEq, Repr

/-- The external store interface (`store.Storer`) plus the package
helpers that live outside the provided source file. Fallible lookups
return `Except`. `setCredential` (the kind-specific credential setter),
`convertClusterPlugin` (`kongPluginFromK8SClusterPlugin`) and the two
`KongIngress` lookups are modelled from the spec: the source file only
shows their call sites, where each may fail and is then skipped. -/
structure Storer where
  listKongConsumers : List KongConsumer
  getSecret : String → String → Except String Secret
  setCredential : String → List (String × CredVal) → Except String Credential
  getKongIngressForServices : List K8sService → Except String (Option KongIngress)
  getKongIngressFromObjectMeta : ObjectMeta → Except String (Option KongIngress)
  getPlugin : String → String → Except String Plugin
  listGlobalKongPlugins : Except String (List KongClusterPlugin)
  listGlobalKongClusterPlugins : Except String (List KongClusterPlugin)
  convertClusterPlugin : KongClusterPlugin → Except String Plugin

/-- Association-list lookup with Go map semantics (first binding wins;
Go maps never hold duplicate keys). -/
def lookupA {α : Type} : List (String × α) → String → Option α
  | [], _ => none
  | kv :: rest, k => if kv.1 = k then some kv.2 else lookupA rest k

/-- Modelled from the spec: the statically known supported
credential-kind set (`credentials.SupportedTypes`, defined in the
validation package, not under the provided source). -/
def SupportedTypes : List String :=
  ["key-auth", "basic-auth", "hmac-auth", "jwt", "oauth2", "acl", "mtls-auth"]

/-- Helper for `goSplitOn`, walking the character list from the right:
each occurrence of the separator starts a fresh group. -/
def goSplitAux (c : Char) : List Char → List (List Char)
  | [] => [[]]
  | ch :: rest =>
    let acc := goSplitAux c rest
    if ch = c then [] :: acc
    else
      match acc with
      | [] => [[ch]]
      | cur :: tail => (ch :: cur) :: tail

/-- Go's `strings.Split` for a one-character separator: splitting the
empty string yields one empty element, and a string with n separators
yields n+1 elements. Written by structural recursion on the character
list so that it reduces inside the kernel. -/
def goSplitOn (c : Char) (s : String) : List String :=
  (goSplitAux c s.data).map (fun l => String.mk l)

/-- Go's `strconv.ParseBool`: accepts exactly the listed literals and
fails on everything else. -/
def parseBool (s : String) : Except String Bool :=
  if s ∈ ["1", "t", "T", "TRUE", "true", "True"] then .ok true
  else if s ∈ ["0", "f", "F", "FALSE", "false", "False"] then .ok false
  else .error "invalid syn"

/-- The per-field transformation of a secret entry
(`kongstate.go` lines 83-105): `redirect_uris` is comma-split into a
list, `hash_secret` is parsed as a bool defaulting to `false` on parse
failure, every other field stays a string. -/
def transformCredField (k v : String) : CredVal :=
  if k = "redirect_uris" then .list (goSplitOn ',' v)
  else if k = "hash_secret" then
    match parseBool v with
    | .ok b => .bool b
    | .error _ => .bool false
  else .str v

/-- The whole transformed credential configuration map built from a
secret's data. -/
def transformSecret (sec : Secret) : List (String × CredVal) :=
  sec.Data.map (fun kv => (kv.1, transformCredField kv.1 kv.2))

/-- The discriminator read of the Go code: the type assertion on the
`kongCredType` entry yields the string itself when the entry is present
as a string, and the zero value otherwise (the code logs on the failed
assertion but does not skip there). -/
def credTypeOf (credConfig : List (String × CredVal)) : String :=
  match lookupA credConfig "kongCredType" with
  | some (.str t) => t
  | _ => ""

/-- Processing of one credential secret reference for one consumer
(`kongstate.go` lines 72-125): fetch the secret (skip on failure),
transform its fields, read the `kongCredType` discriminator, skip
unless the discriminator is a supported kind, skip if the map holds
nothing beyond the discriminator, then hand the map to the
kind-specific setter, skipping on its error. -/
def processCredential (s : Storer) (c : Consumer) (ns cred : String) : Consumer :=
  match s.getSecret ns cred with
  | .error _ => c
  | .ok sec =>
    if credTypeOf (transformSecret sec) ∉ SupportedTypes then c
    else if (transformSecret sec).length ≤ 1 then c
    else
      match s.setCredential (credTypeOf (transformSecret sec)) (transformSecret sec) with
      | .error _ => c
      | .ok cr => { c with Credentials := c.Credentials ++ [cr] }

/-- Materialization of one consumer resource (`kongstate.go` lines
56-125): set each identity pointer only when the field is non-empty,
record the originating resource, then process each credential secret
reference in order. -/
def buildConsumer (s : Storer) (consumer : KongConsumer) : Consumer :=
  let c : Consumer :=
    { Username := if consumer.Username ≠ "" then some consumer.Username else none
      CustomID := if consumer.CustomID ≠ "" then some consumer.CustomID else none
      K8sKongConsumer := consumer
      Credentials := [] }
  consumer.Credentials.foldl (fun c cred => processCredential s c consumer.Namespace cred) c

/-- Go map insert (replace the binding when the key is present, append
otherwise), used for the consumer index. -/
def insertKV (idx : List (String × Consumer)) (k : String) (v : Consumer) :
    List (String × Consumer) :=
  if k ∈ idx.map Prod.fst then
    idx.map (fun kv => if kv.1 = k then (k, v) else kv)
  else idx ++ [(k, v)]

/-- The consumer index built by one resolver pass (`kongstate.go` lines
52-128): consumers with both identity fields empty are skipped, the rest
are indexed by `namespace/name` with last-write-wins. -/
def buildConsumerIndex (s : Storer) : List (String × Consumer) :=
  s.listKongConsumers.foldl
    (fun idx consumer =>
      if consumer.Username = "" ∧ consumer.CustomID = "" then idx
      else insertKV idx (consumer.Namespace ++ "/" ++ consumer.Name) (buildConsumer s consumer))
    []

/-- `KongState.FillConsumersAndCredentials` (`kongstate.go` lines
51-134): build the consumer index, then append its values to the
snapshot's `Consumers` slice. -/
def KongState.FillConsumersAndCredentials (ks : KongState) (s : Storer) : KongState :=
  { ks with Consumers := ks.Consumers ++ (buildConsumerIndex s).map Prod.snd }

/-- Modelled from the spec: the override applier of `Service` (defined
in `service.go`, not under the provided source). Override fields take
precedence over synthesized defaults, but an explicit annotation on the
backing Kubernetes Service has the highest specificity. A `none`
resource leaves the entity untouched. -/
def Service.override (svc : Service) (ki : Option KongIngress)
    (anns : List (String × String)) : Service :=
  let svc :=
    match ki with
    | none => svc
    | some k =>
      match k.proxyProtocol with
      | some p => { svc with Protocol := p }
      | none => svc
  match lookupA anns "konghq.com/protocol" with
  | some p => { svc with Protocol := p }
  | none => svc

/-- Modelled from the spec: the override applier of `Route` (defined in
`route.go`, not under the provided source). A `none` resource (also the
case when the route's lookup failed) leaves the route untouched. -/
def Route.override (r : Route) (ki : Option KongIngress) : Route :=
  match ki with
  | none => r
  | some k =>
    match k.routePreserveHost with
    | some b => { r with PreserveHost := b }
    | none => r

/-- Modelled from the spec: the override applier of `Upstream` (defined
in `upstream.go`, not under the provided source). -/
def Upstream.override (u : Upstream) (ki : Option KongIngress)
    (_anns : List (String × String)) : Upstream :=
  match ki with
  | none => u
  | some k =>
    match k.upstreamAlgorithm with
    | some a => { u with Algorithm := a }
    | none => u

/-- One iteration of the service loop of `FillOverrides`
(`kongstate.go` lines 137-163): on a failed service lookup the loop
continues, which skips the route loop of that service as well; on
success the override is applied once per backing Kubernetes Service and
then each route's override is looked up and applied (a failed route
lookup passes the nil resource to the applier). -/
def processService (s : Storer) (svc : Service) : Service :=
  match s.getKongIngressForServices svc.K8sServices with
  | .error _ => svc
  | .ok ki =>
    let svc2 := svc.K8sServices.foldl (fun sv k8s => sv.override ki k8s.Anns) svc
    { svc2 with
      Routes := svc2.Routes.map (fun r =>
        match s.getKongIngressFromObjectMeta r.Ingress with
        | .error _ => r.override none
        | .ok ki2 => r.override ki2) }

/-- One iteration of the upstream loop of `FillOverrides`
(`kongstate.go` lines 166-178). -/
def processUpstream (s : Storer) (u : Upstream) : Upstream :=
  match s.getKongIngressForServices u.Service.K8sServices with
  | .error _ => u
  | .ok ki => u.Service.K8sServices.foldl (fun up k8s => up.override ki k8s.Anns) u

/-- `KongState.FillOverrides` (`kongstate.go` lines 136-179): the
index-based in-place loops touch exactly one element per iteration and
are embedded as elementwise maps. -/
def KongState.FillOverrides (ks : KongState) (s : Storer) : KongState :=
  { ks with
    Services := ks.Services.map (processService s)
    Upstreams := ks.Upstreams.map (processUpstream s) }

/-- The well-known plugin-attachment annotation key. -/
def pluginsAnnKey : String := "konghq.com/plugins"

/-- Modelled from the spec: `ExtractKongPluginsFromAnnotations` of the
annotations package (not under the provided source) — a pure function
reading the well-known annotation key and returning a comma-split,
order-preserving, duplicate-tolerant list of plugin-declaration
names. -/
def extractKongPlugins (anns : List (String × String)) : List String :=
  match lookupA anns pluginsAnnKey with
  | none => []
  | some v => goSplitOn ',' v

/-- The read side of the Go read-modify-write on the relation map:
the zero `ForeignRelations` when the key is absent. -/
def getRels (rels : List (String × ForeignRelations)) (k : String) : ForeignRelations :=
  match lookupA rels k with
  | some r => r
  | none => ⟨[], [], []⟩

/-- The write side of the Go read-modify-write on the relation map. -/
def setRels (rels : List (String × ForeignRelations)) (k : String)
    (v : ForeignRelations) : List (String × ForeignRelations) :=
  if k ∈ rels.map Prod.fst then rels.map (fun kv => if kv.1 = k then (k, v) else kv)
  else rels ++ [(k, v)]

/-- `addConsumerRelation` of `getPluginRelations` (`kongstate.go` lines
184-192). -/
def addConsumerRelation (rels : List (String × ForeignRelations))
    (ns pluginName identifier : String) : List (String × ForeignRelations) :=
  let key := ns ++ ":" ++ pluginName
  let r := getRels rels key
  setRels rels key { r with Consumer := r.Consumer ++ [identifier] }

/-- `addRouteRelation` of `getPluginRelations` (`kongstate.go` lines
193-201). -/
def addRouteRelation (rels : List (String × ForeignRelations))
    (ns pluginName identifier : String) : List (String × ForeignRelations) :=
  let key := ns ++ ":" ++ pluginName
  let r := getRels rels key
  setRels rels key { r with Route := r.Route ++ [identifier] }

/-- `addServiceRelation` of `getPluginRelations` (`kongstate.go` lines
202-210). -/
def addServiceRelation (rels : List (String × ForeignRelations))
    (ns pluginName identifier : String) : List (String × ForeignRelations) :=
  let key := ns ++ ":" ++ pluginName
  let r := getRels rels key
  setRels rels key { r with Service := r.Service ++ [identifier] }

/-- `KongState.getPluginRelations` (`kongstate.go` lines 181-237).
The Go code dereferences the name pointers `ks.Services[i].Name`,
`ks.Services[i].Routes[j].Name` and `c.Username` without a nil check;
each dereference is embedded as a bind in the `Option` monad, so a nil
pointer yields `none`, the embedding of a runtime panic. -/
def KongState.getPluginRelations (ks : KongState) :
    Option (List (String × ForeignRelations)) := do
  let rels ← ks.Services.foldlM (fun rels svc => do
    let rels ← svc.K8sServices.foldlM (fun rels k8s =>
      (extractKongPlugins k8s.Anns).foldlM (fun rels pluginName => do
        let nm ← svc.Name
        pure (addServiceRelation rels k8s.Namespace pluginName nm)) rels) rels
    svc.Routes.foldlM (fun rels r =>
      (extractKongPlugins r.Ingress.Anns).foldlM (fun rels pluginName => do
        let nm ← r.Name
        pure (addRouteRelation rels r.Ingress.Namespace pluginName nm)) rels) rels) []
  ks.Consumers.foldlM (fun rels c =>
    (extractKongPlugins c.K8sKongConsumer.Anns).foldlM (fun rels pluginName => do
      let u ← c.Username
      pure (addConsumerRelation rels c.K8sKongConsumer.Namespace pluginName u)) rels) rels

/-- Modelled from the spec: `ForeignRelations.GetCombinations` of the
util package (not under the provided source). The spec leaves the exact
cross-kind policy open; this model pairs each consumer with each route
and each service reference, and emits one binding per reference when a
kind is alone. The theorems below do not depend on the chosen policy. -/
def ForeignRelations.GetCombinations (rel : ForeignRelations) : List Rel :=
  match rel.Consumer with
  | [] =>
    rel.Route.map (fun r => ⟨"", r, ""⟩) ++ rel.Service.map (fun s => ⟨s, "", ""⟩)
  | consumers =>
    if rel.Route.length + rel.Service.length = 0 then
      consumers.map (fun c => ⟨"", "", c⟩)
    else
      (consumers.map (fun c =>
        rel.Route.map (fun r => ⟨"", r, c⟩) ++ rel.Service.map (fun s => ⟨s, "", c⟩))).flatten

/-- The scan loop of `globalPlugins` (`kongstate.go` lines 304-330):
entries with an empty plugin name are skipped; a name already present in
the result map is recorded as a duplicate and the entry skipped; an
entry whose conversion fails is skipped; otherwise the converted plugin
is inserted under its name. -/
def scanClusterPlugins (conv : KongClusterPlugin → Except String Plugin) :
    List KongClusterPlugin → List (String × Plugin) → List String →
    List (String × Plugin) × List String
  | [], res, dups => (res, dups)
  | d :: rest, res, dups =>
    if d.PluginName = "" then scanClusterPlugins conv rest res dups
    else if d.PluginName ∈ res.map Prod.fst then
      scanClusterPlugins conv rest res (dups ++ [d.PluginName])
    else
      match conv d with
      | .ok p => scanClusterPlugins conv rest (res ++ [(d.PluginName, p)]) dups
      | .error _ => scanClusterPlugins conv rest res dups

/-- The result map of `globalPlugins` after removing every name recorded
as a duplicate (`kongstate.go` lines 331-333). -/
def finalGlobalPairs (conv : KongClusterPlugin → Except String Plugin)
    (decls : List KongClusterPlugin) : List (String × Plugin) :=
  (scanClusterPlugins conv decls [] []).1.filter
    (fun kv => decide (kv.1 ∉ (scanClusterPlugins conv decls [] []).2))

/-- The value dump of the deduplicated result map (`kongstate.go` lines
334-337). -/
def dedupGlobalPlugins (conv : KongClusterPlugin → Except String Plugin)
    (decls : List KongClusterPlugin) : List Plugin :=
  (finalGlobalPairs conv decls).map Prod.snd

/-- `globalPlugins` (`kongstate.go` lines 280-339): a failing legacy
list call or cluster-plugin list call aborts with an error (the legacy
list is otherwise only used for an advisory warning); otherwise the
cluster-scoped declarations are deduplicated by name. -/
def globalPlugins (s : Storer) : Except String (List Plugin) := do
  let _legacy ← s.listGlobalKongPlugins
  let clusterPlugins ← s.listGlobalKongClusterPlugins
  pure (dedupGlobalPlugins s.convertClusterPlugin clusterPlugins)

/-- `buildPlugins` (`kongstate.go` lines 239-278): expand every relation
key into one plugin instance per combination, setting only the non-empty
binding fields; a failed plugin fetch skips the whole key; the global
plugins are appended at the end (an error there is logged and yields
none). The split of the composite key always finds a colon because every
key is built as namespace ++ ":" ++ name by `getPluginRelations`. -/
def buildPlugins (s : Storer) (pluginRels : List (String × ForeignRelations)) :
    List Plugin :=
  let plugins := pluginRels.foldl (fun plugins kv =>
    let identifier := goSplitOn ':' kv.1
    let ns := identifier.getD 0 ""
    let kongPluginName := identifier.getD 1 ""
    match s.getPlugin ns kongPluginName with
    | .error _ => plugins
    | .ok plugin =>
      plugins ++ kv.2.GetCombinations.map (fun rel =>
        let plugin := if rel.Service ≠ "" then { plugin with Service := some rel.Service } else plugin
        let plugin := if rel.Route ≠ "" then { plugin with Route := some rel.Route } else plugin
        if rel.Consumer ≠ "" then { plugin with Consumer := some rel.Consumer } else plugin)) []
  plugins ++ (match globalPlugins s with | .ok gps => gps | .error _ => [])

/-- `KongState.FillPlugins` (`kongstate.go` lines 341-343): replaces the
snapshot's `Plugins` slice with the expansion of the current relations;
`none` embeds a panic inside `getPluginRelations`. -/
def KongState.FillPlugins (ks : KongState) (s : Storer) : Option KongState :=
  ks.getPluginRelations.map (fun rels => { ks with Plugins := buildPlugins s rels })

/-- The fixed placeholder written over sensitive values. -/
def redactedString : String := "REDACTED"

/-- The field-wise transformation applied by the credential sanitizer:
everything but the discriminator becomes the redacted placeholder. -/
def sanitizeCredField (kv : String × CredVal) : String × CredVal :=
  (kv.1, if kv.1 = "kongCredType" then kv.2 else CredVal.str redactedString)

/-- Modelled from the spec: the credential sanitizer (consumer package
files are not under the provided source) — every field except the
discriminator is replaced by the redacted placeholder. -/
def Credential.SanitizedCopy (cr : Credential) : Credential :=
  { cr with config := cr.config.map sanitizeCredField }

/-- Modelled from the spec: `Consumer.SanitizedCopy` (defined in
`consumer.go`, not under the provided source) — redacts each
credential. -/
def Consumer.SanitizedCopy (c : Consumer) : Consumer :=
  { c with Credentials := c.Credentials.map Credential.SanitizedCopy }

/-- Modelled from the spec: `Certificate.SanitizedCopy` (defined in
`certificate.go`, not under the provided source) — replaces the private
key by the redacted placeholder. -/
def Certificate.SanitizedCopy (cert : Certificate) : Certificate :=
  { cert with Key := redactedString }

/-- `KongState.SanitizedCopy` (`kongstate.go` lines 29-49): a new
snapshot sharing `Services`, `Upstreams`, `CACertificates` and `Plugins`
with the receiver, rebuilding `Certificates` and `Consumers` element by
element through their sanitizers; the `Version` field is absent from the
struct literal and therefore holds the zero value. -/
def KongState.SanitizedCopy (ks : KongState) : KongState :=
  { Services := ks.Services
    Upstreams := ks.Upstreams
    Certificates := ks.Certificates.map Certificate.SanitizedCopy
    CACertificates := ks.CACertificates
    Plugins := ks.Plugins
    Consumers := ks.Consumers.map Consumer.SanitizedCopy
    Version := default }

/-- A heap for the slice-aliasing model: each cell identifier maps to
the list it holds, one address space per slice type, with one shared
allocation counter. A Go slice header is embedded as a cell identifier;
copying the header copies the identifier, so the copy aliases the same
backing cell, while rebuilding a slice allocates a fresh cell. -/
structure Heap where
  services : Nat → List Service
  upstreams : Nat → List Upstream
  certificates : Nat → List Certificate
  caCertificates : Nat → List CACertificate
  plugins : Nat → List Plugin
  consumers : Nat → List Consumer
  next : Nat

/-- The snapshot with each slice field replaced by the identifier of its
backing cell. -/
structure KongStateRef where
  services : Nat
  upstreams : Nat
  certificates : Nat
  caCertificates : Nat
  plugins : Nat
  consumers : Nat
  version : SemVer
deriving DecidableEq, Repr

/-- `SanitizedCopy` on the heap model: the four shared slice headers are
copied as-is (same cell), while `Certificates` and `Consumers` are
rebuilt into freshly allocated cells holding the element-wise sanitized
lists; no existing cell is written. -/
def sanitizedCopyRef (h : Heap) (ks : KongStateRef) : Heap × KongStateRef :=
  let certsRef := h.next
  let h1 : Heap :=
    { h with
      certificates := fun r =>
        if r = certsRef then (h.certificates ks.certificates).map Certificate.SanitizedCopy
        else h.certificates r
      next := h.next + 1 }
  let consRef := h1.next
  let h2 : Heap :=
    { h1 with
      consumers := fun r =>
        if r = consRef then (h1.consumers ks.consumers).map Consumer.SanitizedCopy
        else h1.consumers r
      next := h1.next + 1 }
  (h2,
   { services := ks.services
     upstreams := ks.upstreams
     certificates := certsRef
     caCertificates := ks.caCertificates
     plugins := ks.plugins
     consumers := consRef
     version := default })

/-- Mutation of one element of a services cell. -/
def setServiceElem (h : Heap) (r i : Nat) (v : Service) : Heap :=
  { h with services := fun n => if n = r then (h.services r).set i v else h.services n }

/-- Mutation of one element of an upstreams cell. -/
def setUpstreamElem (h : Heap) (r i : Nat) (v : Upstream) : Heap :=
  { h with upstreams := fun n => if n = r then (h.upstreams r).set i v else h.upstreams n }

/-- Mutation of one element of a certificates cell. -/
def setCertificateElem (h : Heap) (r i : Nat) (v : Certificate) : Heap :=
  { h with certificates := fun n => if n = r then (h.certificates r).set i v else h.certificates n }

/-- Mutation of one element of a caCertificates cell. -/
def setCACertificateElem (h : Heap) (r i : Nat) (v : CACertificate) : Heap :=
  { h with caCertificates := fun n => if n = r then (h.caCertificates r).set i v else h.caCertificates n }

/-- Mutation of one element of a plugins cell. -/
def setPluginElem (h : Heap) (r i : Nat) (v : Plugin) : Heap :=
  { h with plugins := fun n => if n = r then (h.plugins r).set i v else h.plugins n }

/-- Mutation of one element of a consumers cell. -/
def setConsumerElem (h : Heap) (r i : Nat) (v : Consumer) : Heap :=
  { h with consumers := fun n => if n = r then (h.consumers r).set i v else h.consumers n }

/-- The empty snapshot (the Go zero value of `KongState`). -/
def emptyKongState : KongState :=
  { Services := []
    Upstreams := []
    Certificates := []
    CACertificates := []
    Plugins := []
    Consumers := []
    Version := ⟨0, 0, 0⟩ }

/-- The number of declarations carrying a given plugin name. -/
def occursName (n : String) (decls : List KongClusterPlugin) : Nat :=
  decls.countP (fun d => decide (d.PluginName = n))

/-- A store whose every lookup fails and whose every list is empty. -/
def baseStore : Storer :=
  { listKongConsumers := []
    getSecret := fun _ _ => .error "not found"
    setCredential := fun _ _ => .error "invalid credential"
    getKongIngressForServices := fun _ => .error "not found"
    getKongIngressFromObjectMeta := fun _ => .error "not found"
    getPlugin := fun _ _ => .error "not found"
    listGlobalKongPlugins := .ok []
    listGlobalKongClusterPlugins := .ok []
    convertClusterPlugin := fun _ => .error "invalid" }

/-- A consumer resource with both identity fields empty. -/
def kcEmptyIdentity : KongConsumer := ⟨"default", "e", "", "", [], []⟩

/-- A consumer resource with username alice and no credentials. -/
def kcAlice : KongConsumer := ⟨"default", "alice", "alice", "", [], []⟩

/-- A consumer resource carrying only a customID identity together with
a plugin-attachment annotation. -/
def kcCidOnly : KongConsumer :=
  ⟨"default", "c", "", "cid", [], [(pluginsAnnKey, "p1")]⟩

/-- A store serving one empty-identity consumer and one normal one. -/
def storeTwoConsumers : Storer :=
  { baseStore with listKongConsumers := [kcEmptyIdentity, kcAlice] }

/-- A store serving only the customID-only annotated consumer. -/
def storeCidOnly : Storer :=
  { baseStore with listKongConsumers := [kcCidOnly] }

/-- The consumer that the resolver materializes for `kcAlice`. -/
def aliceConsumer : Consumer := ⟨some "alice", none, kcAlice, []⟩

/-- An override resource carrying a payload for all three kinds. -/
def kiSample : KongIngress := ⟨some "grpc", some true, some "least-connections"⟩

/-- The backing Kubernetes Service of the failing snapshot service. -/
def k8sFail : K8sService := ⟨"default", "s1", []⟩

/-- The backing Kubernetes Service of the succeeding snapshot service. -/
def k8sOK : K8sService := ⟨"default", "s2", []⟩

/-- A route of the failing service whose own override lookup succeeds. -/
def routeSample : Route := ⟨some "r1", ⟨"default", "ing1", []⟩, false⟩

/-- A snapshot service whose override lookup fails. -/
def svcFail : Service := ⟨some "svc1", "http", [k8sFail], [routeSample]⟩

/-- A snapshot service whose override lookup succeeds. -/
def svcOK : Service := ⟨some "svc2", "http", [k8sOK], []⟩

/-- An upstream backed by the succeeding service. -/
def upSample : Upstream := ⟨"round-robin", svcOK⟩

/-- A store failing the override lookup exactly for the backing services
of `svcFail` and returning `kiSample` for everything else. -/
def storeOverrides : Storer :=
  { baseStore with
    getKongIngressForServices := fun l =>
      if l = [k8sFail] then .error "not found" else .ok (some kiSample)
    getKongIngressFromObjectMeta := fun _ => .ok (some kiSample) }

/-- The snapshot holding both services and the upstream. -/
def ksOverrides : KongState :=
  { emptyKongState with Services := [svcFail, svcOK], Upstreams := [upSample] }

/-- A snapshot with a non-zero schema version and a certificate. -/
def ksVersioned : KongState :=
  { emptyKongState with
    Version := ⟨1, 2, 3⟩
    Certificates := [⟨"public-part", "private-key"⟩] }

/-- A conversion that fails exactly on the cluster plugin whose resource
name is a, and otherwise yields a plugin named after the declaration. -/
def convFailA : KongClusterPlugin → Except String Plugin := fun d =>
  if d.Name = "a" then .error "bad spec"
  else .ok ⟨d.PluginName, [], none, none, none⟩

/-- A conversion that always succeeds. -/
def convOK : KongClusterPlugin → Except String Plugin := fun d =>
  .ok ⟨d.PluginName, [], none, none, none⟩

/-- Two cluster-scoped declarations sharing the plugin name p; the first
one fails conversion. -/
def declsDup : List KongClusterPlugin := [⟨"a", "p"⟩, ⟨"b", "p"⟩]

/-- The plugin produced for the second declaration of `declsDup`. -/
def pluginP : Plugin := ⟨"p", [], none, none, none⟩

/-- A one-cell heap: every cell of every address space holds a sample
list, and exactly the identifiers below 1 are allocated. -/
def heapSample : Heap :=
  { services := fun _ => [svcOK]
    upstreams := fun _ => [upSample]
    certificates := fun _ => [⟨"public-part", "private-key"⟩]
    caCertificates := fun _ => [⟨"ca"⟩]
    plugins := fun _ => [pluginP]
    consumers := fun _ => [aliceConsumer]
    next := 1 }

/-- The snapshot reference pointing every slice at cell 0. -/
def ksRefSample : KongStateRef := ⟨0, 0, 0, 0, 0, 0, ⟨0, 0, 0⟩⟩

/-- C8 helper: the coercion result of `hash_secret` as one total
function. -/
def hashSecretResult (v : String) : CredVal :=
  match parseBool v with
  | .ok b => .bool b
  | .error _ => .bool false

/-- C9: for every secret field named `redirect_uris`, the credential
field becomes the comma-split list of the raw value; `"a,b,c"` yields
`["a","b","c"]` and the empty string yields `[""]`. -/
theorem redirectUris_comma_split :
    (∀ v, transformCredField "redirect_uris" v = .list (goSplitOn ',' v)) ∧
    transformCredField "redirect_uris" "a,b,c" = .list ["a", "b", "c"] ∧
    transformCredField "redirect_uris" "" = .list [""] := by
  refine ⟨fun v => ?_, by decide, by decide⟩
  simp [transformCredField]

/-- C8: for every secret field named `hash_secret`, the credential field
becomes boolean true when the raw value parses as true, boolean false
when it parses as false, and boolean false when it does not parse as a
bool; the transformation is a total function, so no input crashes it. -/
theorem hashSecret_bool_coercion (v : String) :
    (parseBool v = .ok true → transformCredField "hash_secret" v = .bool true) ∧
    (parseBool v = .ok false → transformCredField "hash_secret" v = .bool false) ∧
    (∀ e, parseBool v = .error e → transformCredField "hash_secret" v = .bool false) := by
  refine ⟨fun h => ?_, fun h => ?_, fun e h => ?_⟩ <;> simp [transformCredField, h]

theorem hashSecret_bool_coercion_witness :
    transformCredField "hash_secret" "true" = .bool true ∧
    transformCredField "hash_secret" "false" = .bool false ∧
    transformCredField "hash_secret" "not-a-bool" = .bool false :=
  ⟨(hashSecret_bool_coercion "true").1 rfl,
   (hashSecret_bool_coercion "false").2.1 rfl,
   (hashSecret_bool_coercion "not-a-bool").2.2 "invalid syn" rfl⟩

theorem processCredential_preserves_resource (s : Storer) (c : Consumer) (ns cred : String) :
    (processCredential s c ns cred).K8sKongConsumer = c.K8sKongConsumer := by
  unfold processCredential
  split
  · rfl
  · split
    · rfl
    · split
      · rfl
      · split <;> rfl

theorem processCredential_preserves_username (s : Storer) (c : Consumer) (ns cred : String) :
    (processCredential s c ns cred).Username = c.Username := by
  unfold processCredential
  split
  · rfl
  · split
    · rfl
    · split
      · rfl
      · split <;> rfl

theorem foldCred_preserves_resource (s : Storer) (ns : String) (l : List String) :
    ∀ c : Consumer,
      (l.foldl (fun c cred => processCredential s c ns cred) c).K8sKongConsumer
        = c.K8sKongConsumer := by
  induction l with
  | nil => intro c; rfl
  | cons x xs ih =>
    intro c
    rw [List.foldl_cons, ih, processCredential_preserves_resource]

theorem buildConsumer_resource (s : Storer) (consumer : KongConsumer) :
    (buildConsumer s consumer).K8sKongConsumer = consumer := by
  unfold buildConsumer
  rw [foldCred_preserves_resource]

theorem insertKV_mem (idx : List (String × Consumer)) (k : String) (v : Consumer)
    (kv : String × Consumer) (h : kv ∈ insertKV idx k v) : kv ∈ idx ∨ kv = (k, v) := by
  unfold insertKV at h
  split at h
  · rcases List.mem_map.1 h with ⟨kv', hkv', heq⟩
    by_cases hk : kv'.1 = k
    · simp [hk] at heq
      exact Or.inr heq.symm
    · simp [hk] at heq
      exact Or.inl (heq ▸ hkv')
  · rcases List.mem_append.1 h with h | h
    · exact Or.inl h
    · simp at h
      exact Or.inr h

theorem buildConsumerIndex_identity (s : Storer) :
    ∀ kv ∈ buildConsumerIndex s,
      ¬(kv.2.K8sKongConsumer.Username = "" ∧ kv.2.K8sKongConsumer.CustomID = "") := by
  unfold buildConsumerIndex
  have main :
      ∀ (l : List KongConsumer) (idx : List (String × Consumer)),
        (∀ kv ∈ idx, ¬(kv.2.K8sKongConsumer.Username = "" ∧ kv.2.K8sKongConsumer.CustomID = "")) →
        ∀ kv ∈ l.foldl
          (fun idx consumer =>
            if consumer.Username = "" ∧ consumer.CustomID = "" then idx
            else insertKV idx (consumer.Namespace ++ "/" ++ consumer.Name) (buildConsumer s consumer))
          idx,
          ¬(kv.2.K8sKongConsumer.Username = "" ∧ kv.2.K8sKongConsumer.CustomID = "") := by
    intro l
    induction l with
    | nil => intro idx hidx kv hkv; exact hidx kv hkv
    | cons consumer rest ih =>
      intro idx hidx kv hkv
      rw [List.foldl_cons] at hkv
      by_cases hskip : consumer.Username = "" ∧ consumer.CustomID = ""
      · rw [if_pos hskip] at hkv
        exact ih idx hidx kv hkv
      · rw [if_neg hskip] at hkv
        refine ih _ ?_ kv hkv
        intro kv' hkv'
        rcases insertKV_mem _ _ _ kv' hkv' with h | h
        · exact hidx kv' h
        · rw [h]
          simpa [buildConsumer_resource] using hskip
  exact main s.listKongConsumers [] (by intro kv h; cases h)

/-- C7: for every consumer resource whose username and customID are both
empty, the resolver does not materialize a consumer — every consumer the
pass adds to the snapshot originates from a resource with a non-empty
identity, so no entry for the empty-identity resource can appear. -/
theorem resolver_excludes_empty_identity (s : Storer) (ks : KongState) (c : Consumer)
    (hc : c ∈ (ks.FillConsumersAndCredentials s).Consumers) (hnew : c ∉ ks.Consumers) :
    ¬(c.K8sKongConsumer.Username = "" ∧ c.K8sKongConsumer.CustomID = "") := by
  unfold KongState.FillConsumersAndCredentials at hc
  rcases List.mem_append.1 hc with h | h
  · exact absurd h hnew
  · rcases List.mem_map.1 h with ⟨kv, hkv, heq⟩
    exact heq ▸ buildConsumerIndex_identity s kv hkv

theorem resolver_excludes_empty_identity_witness :
    ¬(aliceConsumer.K8sKongConsumer.Username = "" ∧
      aliceConsumer.K8sKongConsumer.CustomID = "") :=
  resolver_excludes_empty_identity storeTwoConsumers emptyKongState aliceConsumer
    (by decide) (by decide)

theorem credTypeOf_supported_lookup (cfg : List (String × CredVal))
    (h : credTypeOf cfg ∈ SupportedTypes) :
    lookupA cfg "kongCredType" = some (.str (credTypeOf cfg)) := by
  unfold credTypeOf at h ⊢
  cases hl : lookupA cfg "kongCredType" with
  | none =>
    rw [hl] at h
    exact absurd (show ("" : String) ∈ SupportedTypes from h) (by decide)
  | some v =>
    cases v with
    | str t => rfl
    | bool b =>
      rw [hl] at h
      exact absurd (show ("" : String) ∈ SupportedTypes from h) (by decide)
    | list l =>
      rw [hl] at h
      exact absurd (show ("" : String) ∈ SupportedTypes from h) (by decide)

/-- C6: a credential secret processed by the resolver is appended to its
consumer only if the `kongCredType` discriminator is present as a string,
its value is a supported credential kind, and the transformed field map
holds more than the discriminator entry (and the kind-specific setter
accepts it); in every other case the consumer is returned unchanged, so
the failing credential is absent and the consumer otherwise
unaffected. -/
theorem credential_appended_only_if_valid (s : Storer) (c : Consumer) (ns cred : String) :
    processCredential s c ns cred = c ∨
    ∃ sec t cr,
      s.getSecret ns cred = .ok sec ∧
      lookupA (transformSecret sec) "kongCredType" = some (.str t) ∧
      t ∈ SupportedTypes ∧
      1 < (transformSecret sec).length ∧
      s.setCredential t (transformSecret sec) = .ok cr ∧
      processCredential s c ns cred = { c with Credentials := c.Credentials ++ [cr] } := by
  unfold processCredential
  cases hs : s.getSecret ns cred with
  | error e => exact .inl rfl
  | ok sec =>
    dsimp only
    by_cases hsupp : credTypeOf (transformSecret sec) ∈ SupportedTypes
    · rw [if_neg (not_not_intro hsupp)]
      by_cases hlen : (transformSecret sec).length ≤ 1
      · rw [if_pos hlen]
        exact .inl rfl
      · rw [if_neg hlen]
        cases hset : s.setCredential (credTypeOf (transformSecret sec)) (transformSecret sec) with
        | error e => exact .inl rfl
        | ok cr =>
          exact .inr ⟨sec, credTypeOf (transformSecret sec), cr, rfl,
            credTypeOf_supported_lookup _ hsupp, hsupp, Nat.lt_of_not_le hlen, hset, rfl⟩
    · rw [if_pos hsupp]
      exact .inl rfl

theorem sanitizeCredField_idem (kv : String × CredVal) :
    sanitizeCredField (sanitizeCredField kv) = sanitizeCredField kv := by
  by_cases h : kv.1 = "kongCredType" <;> simp [sanitizeCredField, h]

theorem map_idem {α : Type} (f : α → α) (hf : ∀ a, f (f a) = f a) (l : List α) :
    (l.map f).map f = l.map f := by
  induction l with
  | nil => rfl
  | cons x xs ih => simp [hf, ih]

theorem credential_sanitizedCopy_idem (cr : Credential) :
    cr.SanitizedCopy.SanitizedCopy = cr.SanitizedCopy := by
  simp [Credential.SanitizedCopy, map_idem _ sanitizeCredField_idem]

theorem consumer_sanitizedCopy_idem (c : Consumer) :
    c.SanitizedCopy.SanitizedCopy = c.SanitizedCopy := by
  simp [Consumer.SanitizedCopy, map_idem _ credential_sanitizedCopy_idem]

/-- C4 (amended): `SanitizedCopy` preserves every field of the snapshot
except the schema `Version`, which it resets to the zero value; it
replaces the sensitive fields of `Certificates` and `Consumers`
element by element; re-sanitizing a sanitized snapshot yields the
identical snapshot (idempotent redaction); and on the heap model the
copy writes no allocated cell, so the receiver is never mutated. -/
theorem sanitizedCopy_structure_and_idem (ks : KongState) (h : Heap) (kr : KongStateRef) :
    ks.SanitizedCopy.Services = ks.Services ∧
    ks.SanitizedCopy.Upstreams = ks.Upstreams ∧
    ks.SanitizedCopy.CACertificates = ks.CACertificates ∧
    ks.SanitizedCopy.Plugins = ks.Plugins ∧
    ks.SanitizedCopy.Certificates = ks.Certificates.map Certificate.SanitizedCopy ∧
    ks.SanitizedCopy.Consumers = ks.Consumers.map Consumer.SanitizedCopy ∧
    ks.SanitizedCopy.Version = default ∧
    ks.SanitizedCopy.SanitizedCopy = ks.SanitizedCopy ∧
    (∀ r, r < h.next →
      (sanitizedCopyRef h kr).1.services r = h.services r ∧
      (sanitizedCopyRef h kr).1.upstreams r = h.upstreams r ∧
      (sanitizedCopyRef h kr).1.certificates r = h.certificates r ∧
      (sanitizedCopyRef h kr).1.caCertificates r = h.caCertificates r ∧
      (sanitizedCopyRef h kr).1.plugins r = h.plugins r ∧
      (sanitizedCopyRef h kr).1.consumers r = h.consumers r) := by
  refine ⟨rfl, rfl, rfl, rfl, rfl, rfl, rfl, ?_, ?_⟩
  · simp [KongState.SanitizedCopy, map_idem _ credential_sanitizedCopy_idem,
      map_idem _ consumer_sanitizedCopy_idem, map_idem Certificate.SanitizedCopy (fun _ => rfl)]
  · intro r hr
    have h1 : r ≠ h.next := Nat.ne_of_lt hr
    have h2 : r ≠ h.next + 1 := Nat.ne_of_lt (Nat.lt_succ_of_lt hr)
    exact ⟨rfl, rfl, by simp [sanitizedCopyRef, h1], rfl, rfl, by simp [sanitizedCopyRef, h2]⟩

theorem sanitizedCopy_drops_version :
    ksVersioned.SanitizedCopy.Version ≠ ksVersioned.Version := by decide

theorem sanitizedCopy_structure_witness :
    ksVersioned.SanitizedCopy.Version = default ∧
    (sanitizedCopyRef heapSample ksRefSample).1.services 0 = heapSample.services 0 := by
  have h := sanitizedCopy_structure_and_idem ksVersioned heapSample ksRefSample
  exact ⟨h.2.2.2.2.2.2.1, (h.2.2.2.2.2.2.2.2 0 (by decide)).1⟩

/-- C10: the snapshot returned by the sanitizer shares its `Services`,
`Upstreams`, `Plugins` and `CACertificates` slices with the original
(same backing cell, so a mutation through the copy is read back through
the original), while `Certificates` and `Consumers` live in freshly
allocated cells (a mutation through the copy is invisible through the
original). -/
theorem sanitizedCopyRef_shares_four_slices (h : Heap) (ks : KongStateRef)
    (hc : ks.certificates < h.next) (hco : ks.consumers < h.next) :
    ((sanitizedCopyRef h ks).2.services = ks.services ∧
     (sanitizedCopyRef h ks).2.upstreams = ks.upstreams ∧
     (sanitizedCopyRef h ks).2.plugins = ks.plugins ∧
     (sanitizedCopyRef h ks).2.caCertificates = ks.caCertificates) ∧
    (∀ i v, (setServiceElem (sanitizedCopyRef h ks).1 (sanitizedCopyRef h ks).2.services i v).services
        ks.services = ((sanitizedCopyRef h ks).1.services ks.services).set i v) ∧
    (∀ i v, (setUpstreamElem (sanitizedCopyRef h ks).1 (sanitizedCopyRef h ks).2.upstreams i v).upstreams
        ks.upstreams = ((sanitizedCopyRef h ks).1.upstreams ks.upstreams).set i v) ∧
    (∀ i v, (setPluginElem (sanitizedCopyRef h ks).1 (sanitizedCopyRef h ks).2.plugins i v).plugins
        ks.plugins = ((sanitizedCopyRef h ks).1.plugins ks.plugins).set i v) ∧
    (∀ i v, (setCACertificateElem (sanitizedCopyRef h ks).1 (sanitizedCopyRef h ks).2.caCertificates i v).caCertificates
        ks.caCertificates = ((sanitizedCopyRef h ks).1.caCertificates ks.caCertificates).set i v) ∧
    ((sanitizedCopyRef h ks).2.certificates ≠ ks.certificates ∧
     (sanitizedCopyRef h ks).2.consumers ≠ ks.consumers) ∧
    (∀ i v, (setCertificateElem (sanitizedCopyRef h ks).1 (sanitizedCopyRef h ks).2.certificates i v).certificates
        ks.certificates = (sanitizedCopyRef h ks).1.certificates ks.certificates) ∧
    (∀ i v, (setConsumerElem (sanitizedCopyRef h ks).1 (sanitizedCopyRef h ks).2.consumers i v).consumers
        ks.consumers = (sanitizedCopyRef h ks).1.consumers ks.consumers) := by
  refine ⟨⟨rfl, rfl, rfl, rfl⟩, ?_, ?_, ?_, ?_, ⟨?_, ?_⟩, ?_, ?_⟩
  · intro i v; simp [setServiceElem, sanitizedCopyRef]
  · intro i v; simp [setUpstreamElem, sanitizedCopyRef]
  · intro i v; simp [setPluginElem, sanitizedCopyRef]
  · intro i v; simp [setCACertificateElem, sanitizedCopyRef]
  · exact Ne.symm (Nat.ne_of_lt hc)
  · exact Ne.symm (Nat.ne_of_lt (Nat.lt_succ_of_lt hco))
  · intro i v; simp [setCertificateElem, sanitizedCopyRef, Nat.ne_of_lt hc]
  · intro i v; simp [setConsumerElem, sanitizedCopyRef, Nat.ne_of_lt (Nat.lt_succ_of_lt hco)]

theorem sanitizedCopyRef_shares_four_slices_witness :
    (sanitizedCopyRef heapSample ksRefSample).2.services = ksRefSample.services ∧
    (sanitizedCopyRef heapSample ksRefSample).2.certificates ≠ ksRefSample.certificates := by
  have h := sanitizedCopyRef_shares_four_slices heapSample ksRefSample (by decide) (by decide)
  exact ⟨h.1.1, h.2.2.2.2.2.1.1⟩

theorem getPluginRelations_ignores_plugins (ks : KongState) (p : List Plugin) :
    KongState.getPluginRelations { ks with Plugins := p } = ks.getPluginRelations := rfl

/-- C1 (amended): `FillPlugins` is idempotent given the same store state
because it replaces the snapshot's `Plugins` slice and reads only fields
it does not write; `FillConsumersAndCredentials` is not idempotent: it
appends the consumer index built from the store to the snapshot's
existing `Consumers` slice, so a second run duplicates the consumers. -/
theorem fillPlugins_idem_fillConsumers_appends (s : Storer) (ks ks' : KongState)
    (h : ks.FillPlugins s = some ks') :
    ks'.FillPlugins s = some ks' ∧
    (ks.FillConsumersAndCredentials s).Consumers
      = ks.Consumers ++ (buildConsumerIndex s).map Prod.snd := by
  refine ⟨?_, rfl⟩
  unfold KongState.FillPlugins at h ⊢
  cases hr : ks.getPluginRelations with
  | none => rw [hr] at h; simp at h
  | some rels =>
    rw [hr] at h
    simp only [Option.map_some'] at h
    obtain rfl : ({ ks with Plugins := buildPlugins s rels } : KongState) = ks' :=
      Option.some.inj h
    rw [getPluginRelations_ignores_plugins, hr]
    rfl

theorem fillConsumersAndCredentials_not_idempotent :
    (emptyKongState.FillConsumersAndCredentials storeTwoConsumers).FillConsumersAndCredentials
        storeTwoConsumers
      ≠ emptyKongState.FillConsumersAndCredentials storeTwoConsumers := by decide

theorem fillPlugins_idem_witness :
    emptyKongState.FillPlugins baseStore = some emptyKongState ∧
    (emptyKongState.FillConsumersAndCredentials baseStore).Consumers
      = emptyKongState.Consumers ++ (buildConsumerIndex baseStore).map Prod.snd := by
  have h := fillPlugins_idem_fillConsumers_appends baseStore emptyKongState emptyKongState
    (by decide)
  exact ⟨h.1, h.2⟩

/-- C2: the snapshot materialized by the resolver for a consumer
resource carrying only a customID and a plugin-attachment annotation has
`Username = none`; `FillPlugins` on that snapshot dereferences the nil
username pointer inside `getPluginRelations` and panics (`none` in the
embedding), contradicting the spec's guarantee that the worst outcome of
a bad input is one absent entity, never a crash. -/
theorem fillPlugins_panics_on_customID_only_consumer :
    (emptyKongState.FillConsumersAndCredentials storeCidOnly).Consumers
      = [⟨none, some "cid", kcCidOnly, []⟩] ∧
    (emptyKongState.FillConsumersAndCredentials storeCidOnly).FillPlugins storeCidOnly
      = none := by decide

theorem fillOverrides_services_length (ks : KongState) (s : Storer) :
    (ks.FillOverrides s).Services.length = ks.Services.length := by
  simp [KongState.FillOverrides]

/-- C5 (amended): when the override lookup for a service fails, that
service is left untouched in its entirety — including its routes, whose
own overrides are neither looked up nor applied, because the loop
continues to the next service; the failure does not propagate to other
services or to the upstreams, which are processed independently
(route-level overrides are resolved independently only when the owning
service's lookup succeeds). -/
theorem fillOverrides_failure_isolated (s : Storer) (ks : KongState)
    (i : Fin ks.Services.length)
    (hfail : ∃ e, s.getKongIngressForServices (ks.Services.get i).K8sServices = .error e) :
    (ks.FillOverrides s).Services.get
        ⟨i.val, by rw [fillOverrides_services_length]; exact i.isLt⟩ = ks.Services.get i ∧
    (∀ j : Fin ks.Services.length,
      (ks.FillOverrides s).Services.get
          ⟨j.val, by rw [fillOverrides_services_length]; exact j.isLt⟩
        = processService s (ks.Services.get j)) ∧
    (ks.FillOverrides s).Upstreams = ks.Upstreams.map (processUpstream s) := by
  have hmap : ∀ j : Fin ks.Services.length,
      ∀ hj : j.val < (ks.FillOverrides s).Services.length,
      (ks.FillOverrides s).Services.get ⟨j.val, hj⟩ = processService s (ks.Services.get j) := by
    intro j hj
    simp [KongState.FillOverrides, List.get_eq_getElem]
  refine ⟨?_, fun j => hmap j _, rfl⟩
  rw [hmap i _]
  obtain ⟨e, he⟩ := hfail
  unfold processService
  rw [he]

theorem route_override_skipped_when_service_lookup_fails :
    (ksOverrides.FillOverrides storeOverrides).Services.head? = some svcFail ∧
    routeSample.override (some kiSample) ≠ routeSample := by decide

theorem fillOverrides_failure_isolated_witness :
    (ksOverrides.FillOverrides storeOverrides).Services.get ⟨0, by decide⟩
        = ksOverrides.Services.get ⟨0, by decide⟩ ∧
    (ksOverrides.FillOverrides storeOverrides).Upstreams
      = ksOverrides.Upstreams.map (processUpstream storeOverrides) := by
  have h := fillOverrides_failure_isolated storeOverrides ksOverrides ⟨0, by decide⟩
    ⟨"not found", by decide⟩
  exact ⟨h.1, h.2.2⟩

theorem scan_keys_mem (conv : KongClusterPlugin → Except String Plugin) (n : String) :
    ∀ (decls : List KongClusterPlugin) (res : List (String × Plugin)) (dups : List String),
      (∀ d ∈ decls, ∃ q, conv d = .ok q) →
      (n ∈ (scanClusterPlugins conv decls res dups).1.map Prod.fst ↔
        n ∈ res.map Prod.fst ∨ (¬n = "" ∧ 1 ≤ occursName n decls)) := by
  intro decls
  induction decls with
  | nil =>
    intro res dups _
    simp [scanClusterPlugins, occursName]
  | cons d rest ih =>
    intro res dups H
    have Hr : ∀ d ∈ rest, ∃ q, conv d = .ok q :=
      fun d hd => H d (List.mem_cons_of_mem _ hd)
    have hocc : occursName n (d :: rest)
        = occursName n rest + (if d.PluginName = n then 1 else 0) := by
      simp [occursName, List.countP_cons]
    simp only [scanClusterPlugins]
    by_cases hname : d.PluginName = ""
    · rw [if_pos hname, ih res dups Hr]
      by_cases hn : n = ""
      · simp [hn]
      · have hdn : ¬(d.PluginName = n) := fun hh => hn (hname ▸ hh).symm
        rw [hocc, if_neg hdn, Nat.add_zero]
    · rw [if_neg hname]
      by_cases hmem : d.PluginName ∈ res.map Prod.fst
      · rw [if_pos hmem, ih res (dups ++ [d.PluginName]) Hr]
        by_cases hdn : d.PluginName = n
        · constructor
          · intro _; exact Or.inl (hdn ▸ hmem)
          · intro _; exact Or.inl (hdn ▸ hmem)
        · rw [hocc, if_neg hdn, Nat.add_zero]
      · rw [if_neg hmem]
        rcases H d (List.mem_cons_self d rest) with ⟨q, hq⟩
        rw [hq]
        dsimp only
        rw [ih (res ++ [(d.PluginName, q)]) dups Hr]
        by_cases hdn : d.PluginName = n
        · rw [hocc, if_pos hdn]
          constructor
          · intro _
            exact Or.inr ⟨fun hn => hname (hdn.trans hn), by omega⟩
          · intro _
            left
            rw [List.map_append, List.mem_append]
            right
            simp [hdn]
        · rw [hocc, if_neg hdn, Nat.add_zero, List.map_append, List.mem_append]
          constructor
          · rintro (⟨h | h⟩ | h)
            · exact Or.inl h
            · simp at h
              exact absurd h.symm hdn
            · exact Or.inr (by simpa using h)
          · rintro (h | h)
            · exact Or.inl (Or.inl h)
            · exact Or.inr (by simpa using h)

theorem scan_dups_mem (conv : KongClusterPlugin → Except String Plugin) (n : String) :
    ∀ (decls : List KongClusterPlugin) (res : List (String × Plugin)) (dups : List String),
      (∀ d ∈ decls, ∃ q, conv d = .ok q) →
      (n ∈ (scanClusterPlugins conv decls res dups).2 ↔
        n ∈ dups ∨ (¬n = "" ∧
          ((n ∈ res.map Prod.fst ∧ 1 ≤ occursName n decls) ∨ 2 ≤ occursName n decls))) := by
  intro decls
  induction decls with
  | nil =>
    intro res dups _
    simp [scanClusterPlugins, occursName]
  | cons d rest ih =>
    intro res dups H
    have Hr : ∀ d ∈ rest, ∃ q, conv d = .ok q :=
      fun d hd => H d (List.mem_cons_of_mem _ hd)
    have hocc : occursName n (d :: rest)
        = occursName n rest + (if d.PluginName = n then 1 else 0) := by
      simp [occursName, List.countP_cons]
    simp only [scanClusterPlugins]
    by_cases hname : d.PluginName = ""
    · rw [if_pos hname, ih res dups Hr]
      by_cases hn : n = ""
      · simp [hn]
      · have hdn : ¬(d.PluginName = n) := fun hh => hn (hname ▸ hh).symm
        rw [hocc, if_neg hdn, Nat.add_zero]
    · rw [if_neg hname]
      by_cases hmem : d.PluginName ∈ res.map Prod.fst
      · rw [if_pos hmem, ih res (dups ++ [d.PluginName]) Hr]
        by_cases hdn : d.PluginName = n
        · have hn' : ¬n = "" := fun hh => hname (hdn.trans hh)
          rw [hocc, if_pos hdn]
          constructor
          · intro _
            exact Or.inr ⟨hn', Or.inl ⟨hdn ▸ hmem, by omega⟩⟩
          · intro _
            exact Or.inl (List.mem_append.mpr (Or.inr (by simp [hdn])))
        · rw [hocc, if_neg hdn, Nat.add_zero, List.mem_append]
          constructor
          · rintro ((h | h) | h)
            · exact Or.inl h
            · have hh : n = d.PluginName := by simpa using h
              exact absurd hh.symm hdn
            · exact Or.inr h
          · rintro (h | h)
            · exact Or.inl (Or.inl h)
            · exact Or.inr h
      · rw [if_neg hmem]
        rcases H d (List.mem_cons_self d rest) with ⟨q, hq⟩
        rw [hq]
        dsimp only
        rw [ih (res ++ [(d.PluginName, q)]) dups Hr]
        by_cases hdn : d.PluginName = n
        · have hn' : ¬n = "" := fun hh => hname (hdn.trans hh)
          rw [hocc, if_pos hdn, List.map_append, List.mem_append]
          constructor
          · rintro (h | ⟨h1, (⟨hk, ho⟩ | ho)⟩)
            · exact Or.inl h
            · exact Or.inr ⟨hn', Or.inr (by omega)⟩
            · exact Or.inr ⟨hn', Or.inr (by omega)⟩
          · rintro (h | ⟨h1, (⟨hk, ho⟩ | ho)⟩)
            · exact Or.inl h
            · exact absurd (show d.PluginName ∈ res.map Prod.fst by rw [hdn]; exact hk) hmem
            · exact Or.inr ⟨h1, Or.inl ⟨Or.inr (by simp [hdn.symm]), by omega⟩⟩
        · rw [hocc, if_neg hdn, Nat.add_zero, List.map_append, List.mem_append]
          constructor
          · rintro (h | ⟨h1, (⟨(hk | hk), ho⟩ | ho)⟩)
            · exact Or.inl h
            · exact Or.inr ⟨h1, Or.inl ⟨hk, ho⟩⟩
            · have hh : n = d.PluginName := by simpa using hk
              exact absurd hh.symm hdn
            · exact Or.inr ⟨h1, Or.inr ho⟩
          · rintro (h | ⟨h1, (⟨hk, ho⟩ | ho)⟩)
            · exact Or.inl h
            · exact Or.inr ⟨h1, Or.inl ⟨Or.inl hk, ho⟩⟩
            · exact Or.inr ⟨h1, Or.inr ho⟩

theorem scan_res_zero (conv : KongClusterPlugin → Except String Plugin) (n : String)
    (p : Plugin) :
    ∀ (decls : List KongClusterPlugin) (res : List (String × Plugin)) (dups : List String),
      occursName n decls = 0 →
      ((n, p) ∈ (scanClusterPlugins conv decls res dups).1 ↔ (n, p) ∈ res) := by
  intro decls
  induction decls with
  | nil => intro res dups _; simp [scanClusterPlugins]
  | cons d rest ih =>
    intro res dups hocc
    have hocc' : occursName n rest + (if d.PluginName = n then 1 else 0) = 0 := by
      simpa [occursName, List.countP_cons] using hocc
    have hrest : occursName n rest = 0 := by omega
    have hdn : ¬(d.PluginName = n) := by
      intro hh
      rw [if_pos hh] at hocc'
      omega
    simp only [scanClusterPlugins]
    by_cases hname : d.PluginName = ""
    · rw [if_pos hname]
      exact ih res dups hrest
    · rw [if_neg hname]
      by_cases hmem : d.PluginName ∈ res.map Prod.fst
      · rw [if_pos hmem]
        exact ih res (dups ++ [d.PluginName]) hrest
      · rw [if_neg hmem]
        cases hq : conv d with
        | error e => exact ih res dups hrest
        | ok q =>
          dsimp only
          rw [ih (res ++ [(d.PluginName, q)]) dups hrest, List.mem_append]
          constructor
          · rintro (h | h)
            · exact h
            · have hh : n = d.PluginName ∧ p = q := by simpa using h
              exact absurd hh.1.symm hdn
          · intro h
            exact Or.inl h

theorem scan_res_one (conv : KongClusterPlugin → Except String Plugin) (n : String)
    (p : Plugin) (hn : ¬n = "") :
    ∀ (decls : List KongClusterPlugin) (res : List (String × Plugin)) (dups : List String),
      (∀ d ∈ decls, ∃ q, conv d = .ok q) →
      occursName n decls = 1 → n ∉ res.map Prod.fst →
      ((n, p) ∈ (scanClusterPlugins conv decls res dups).1 ↔
        ∃ d, d ∈ decls ∧ d.PluginName = n ∧ conv d = .ok p) := by
  intro decls
  induction decls with
  | nil => intro res dups _ hocc _; simp [occursName] at hocc
  | cons d rest ih =>
    intro res dups H hocc hkey
    have Hr : ∀ d ∈ rest, ∃ q, conv d = .ok q :=
      fun d hd => H d (List.mem_cons_of_mem _ hd)
    have hocc' : occursName n rest + (if d.PluginName = n then 1 else 0) = 1 := by
      simpa [occursName, List.countP_cons] using hocc
    simp only [scanClusterPlugins]
    by_cases hdn : d.PluginName = n
    · have hrest : occursName n rest = 0 := by rw [if_pos hdn] at hocc'; omega
      have hname : ¬(d.PluginName = "") := fun hh => hn (hdn.symm.trans hh)
      have hmem : ¬(d.PluginName ∈ res.map Prod.fst) := fun hh => hkey (hdn ▸ hh)
      rw [if_neg hname, if_neg hmem]
      rcases H d (List.mem_cons_self d rest) with ⟨q, hq⟩
      rw [hq]
      dsimp only
      rw [scan_res_zero conv n p rest _ dups hrest, List.mem_append]
      constructor
      · rintro (h | h)
        · exact absurd (List.mem_map_of_mem Prod.fst h) hkey
        · have hh : n = d.PluginName ∧ p = q := by simpa using h
          exact ⟨d, List.mem_cons_self d rest, hdn, by rw [hq, hh.2]⟩
      · rintro ⟨d', hd', hdn', hq'⟩
        rcases List.mem_cons.1 hd' with rfl | hd'
        · have hpq : q = p := by
            rw [hq] at hq'
            exact Except.ok.inj hq'
          right
          simp only [List.mem_singleton, Prod.mk.injEq]
          exact ⟨hdn.symm, hpq.symm⟩
        · have hrest' : rest.countP (fun d => decide (d.PluginName = n)) = 0 := hrest
          exact absurd hdn' (by simpa using List.countP_eq_zero.1 hrest' d' hd')
    · have hrest : occursName n rest = 1 := by rw [if_neg hdn] at hocc'; omega
      have hRHS : (∃ d', d' ∈ d :: rest ∧ d'.PluginName = n ∧ conv d' = .ok p) ↔
          (∃ d', d' ∈ rest ∧ d'.PluginName = n ∧ conv d' = .ok p) := by
        constructor
        · rintro ⟨d', hd', h1, h2⟩
          rcases List.mem_cons.1 hd' with rfl | hd'
          · exact absurd h1 hdn
          · exact ⟨d', hd', h1, h2⟩
        · rintro ⟨d', hd', h1, h2⟩
          exact ⟨d', List.mem_cons_of_mem d hd', h1, h2⟩
      rw [hRHS]
      by_cases hname : d.PluginName = ""
      · rw [if_pos hname]
        exact ih res dups Hr hrest hkey
      · rw [if_neg hname]
        by_cases hmem : d.PluginName ∈ res.map Prod.fst
        · rw [if_pos hmem]
          exact ih res (dups ++ [d.PluginName]) Hr hrest hkey
        · rw [if_neg hmem]
          rcases H d (List.mem_cons_self d rest) with ⟨q, hq⟩
          rw [hq]
          dsimp only
          have hkey' : n ∉ (res ++ [(d.PluginName, q)]).map Prod.fst := by
            rw [List.map_append]
            intro hh
            rcases List.mem_append.1 hh with hh | hh
            · exact hkey hh
            · have : n = d.PluginName := by simpa using hh
              exact hdn this.symm
          exact ih (res ++ [(d.PluginName, q)]) dups Hr hrest hkey'

theorem finalGlobalPairs_mem (conv : KongClusterPlugin → Except String Plugin)
    (decls : List KongClusterPlugin) (n : String) (p : Plugin)
    (H : ∀ d ∈ decls, ∃ q, conv d = .ok q) :
    ((n, p) ∈ finalGlobalPairs conv decls ↔
      ¬n = "" ∧ occursName n decls = 1 ∧
        ∃ d, d ∈ decls ∧ d.PluginName = n ∧ conv d = .ok p) := by
  unfold finalGlobalPairs
  rw [List.mem_filter]
  constructor
  · rintro ⟨hin, hflt⟩
    have hnot : n ∉ (scanClusterPlugins conv decls [] []).2 := by simpa using hflt
    have hkey : n ∈ (scanClusterPlugins conv decls [] []).1.map Prod.fst :=
      List.mem_map_of_mem Prod.fst hin
    rw [scan_keys_mem conv n decls [] [] H] at hkey
    rcases hkey with hkey | ⟨hn, hocc1⟩
    · simp at hkey
    · have hocc : occursName n decls = 1 := by
        by_contra hne
        have h2 : 2 ≤ occursName n decls := by omega
        exact hnot ((scan_dups_mem conv n decls [] [] H).2 (Or.inr ⟨hn, Or.inr h2⟩))
      exact ⟨hn, hocc, (scan_res_one conv n p hn decls [] [] H hocc (by simp)).1 hin⟩
  · rintro ⟨hn, hocc, hex⟩
    refine ⟨(scan_res_one conv n p hn decls [] [] H hocc (by simp)).2 hex, ?_⟩
    simp only [decide_eq_true_eq]
    intro hmem
    rw [scan_dups_mem conv n decls [] [] H] at hmem
    rcases hmem with h | ⟨_, (⟨h, _⟩ | h)⟩
    · simp at h
    · simp at h
    · omega

theorem dedupGlobalPlugins_mem (conv : KongClusterPlugin → Except String Plugin)
    (decls : List KongClusterPlugin)
    (H : ∀ d ∈ decls, ∃ q, conv d = .ok q) (p : Plugin) :
    (p ∈ dedupGlobalPlugins conv decls ↔
      ∃ n d, ¬n = "" ∧ occursName n decls = 1 ∧
        d ∈ decls ∧ d.PluginName = n ∧ conv d = .ok p) := by
  unfold dedupGlobalPlugins
  rw [List.mem_map]
  constructor
  · rintro ⟨⟨n, q⟩, hkv, hq⟩
    rw [show (n, q).2 = q from rfl] at hq
    subst hq
    rw [finalGlobalPairs_mem conv decls n q H] at hkv
    obtain ⟨hn, hocc, d, hd, hdn, hcv⟩ := hkv
    exact ⟨n, d, hn, hocc, hd, hdn, hcv⟩
  · rintro ⟨n, d, hn, hocc, hd, hdn, hcv⟩
    exact ⟨(n, p), (finalGlobalPairs_mem conv decls n p H).2 ⟨hn, hocc, d, hd, hdn, hcv⟩, rfl⟩

/-- C3 (amended): for every list of cluster-scoped plugin declarations
in which two or more declarations share the same non-empty plugin name,
provided every declaration in the list converts successfully to a plugin
instance, none of the declarations with that name appears in the
resulting global plugin list (no pair with that name survives the
duplicate removal), and the resulting set of global plugins is the same
for every permutation of the input list. Without the conversion proviso
the claim is refuted by the counterexample below: the duplicate check
consults only names whose conversion succeeded. -/
theorem globalPlugins_conflict_omission_perm_invariant
    (conv : KongClusterPlugin → Except String Plugin)
    (decls decls' : List KongClusterPlugin)
    (H : ∀ d ∈ decls, ∃ q, conv d = .ok q) (hperm : decls.Perm decls') :
    (∀ n, ¬n = "" → 2 ≤ occursName n decls →
      ∀ p, (n, p) ∉ finalGlobalPairs conv decls) ∧
    (∀ p, p ∈ dedupGlobalPlugins conv decls ↔ p ∈ dedupGlobalPlugins conv decls') := by
  have H' : ∀ d ∈ decls', ∃ q, conv d = .ok q := fun d hd => H d (hperm.mem_iff.mpr hd)
  have hcnt : ∀ m, occursName m decls = occursName m decls' := by
    intro m
    unfold occursName
    exact hperm.countP_eq _
  constructor
  · intro n hn h2 p hmem
    rw [finalGlobalPairs_mem conv decls n p H] at hmem
    obtain ⟨_, hocc, _⟩ := hmem
    omega
  · intro p
    rw [dedupGlobalPlugins_mem conv decls H p, dedupGlobalPlugins_mem conv decls' H' p]
    constructor
    · rintro ⟨n, d, hn, hocc, hd, hdn, hcv⟩
      refine ⟨n, d, hn, ?_, hperm.mem_iff.mp hd, hdn, hcv⟩
      have := hcnt n
      omega
    · rintro ⟨n, d, hn, hocc, hd, hdn, hcv⟩
      refine ⟨n, d, hn, ?_, hperm.mem_iff.mpr hd, hdn, hcv⟩
      have := hcnt n
      omega

theorem duplicate_named_plugin_survives :
    occursName "p" declsDup = 2 ∧
    pluginP ∈ dedupGlobalPlugins convFailA declsDup ∧
    dedupGlobalPlugins convFailA declsDup.reverse = [] := by decide

theorem globalPlugins_conflict_omission_witness :
    (("p", pluginP) ∉ finalGlobalPairs convOK declsDup) ∧
    (pluginP ∈ dedupGlobalPlugins convOK declsDup ↔
      pluginP ∈ dedupGlobalPlugins convOK declsDup.reverse) := by
  have h := globalPlugins_conflict_omission_perm_invariant convOK declsDup declsDup.reverse
    (fun d _ => ⟨⟨d.PluginName, [], none, none, none⟩, rfl⟩)
    (List.reverse_perm declsDup).symm
  exact ⟨h.1 "p" (by decide) (by decide) pluginP, h.2 pluginP⟩

end KIC
